import Mathlib

/-!
Verification of the productivity-tracker core: a shallow embedding of the
client state machine (`app.js`), the statistics engine, the AWS sync/merge
client, and the Lambda backend's range handler, together with theorems
checking the specification's claims against that embedding.

Conventions of the embedding:
* JS epoch-millisecond timestamps are `Int`.
* JS `Math.floor(x / 1000)` on an integer-valued dividend is `Int.fdiv`.
* JS string comparison (`>=` on `YYYY-MM-DD` date strings) is modelled by
  lexicographic comparison of the character lists (`jsStrLe`), which agrees
  with JS UTF-16 code-unit comparison on such strings.
* `null` becomes `Option.none`; the app's single mutable `state` object
  becomes the `AppState` record threaded through the transition functions.
* Environment-supplied values (the wall clock `Date.now()`, `getToday()`,
  `generateId()`, `CONFIG.MIN_SESSION_DURATION`) are bundled in `Env`.
* `setInterval` handlers are modelled by `timerInterval : Option TickKind`
  recording which callback is currently installed: the callbacks created by
  `startTimer`/`resumeTimer` (`TickKind.generic`, which dispatch completion
  to `pomodoroFinished`) and the one created by `startBreak`
  (`TickKind.breakTick`, which dispatches to `breakFinished`).
  `clearInterval` sets the field to `none`; `tick` runs one installed
  callback invocation.
* The `setTimeout`-delayed display reset inside `pomodoroFinished` /
  `breakFinished` is folded into those functions: the model state after
  them is the state once the 3-second display hold has elapsed.
-/

namespace PT

/-- JS `<` on strings, on the underlying character lists (code-unit order). -/
def jsLtChars : List Char → List Char → Bool
  | [], [] => false
  | [], _ :: _ => true
  | _ :: _, [] => false
  | a :: as, b :: bs =>
    if a.val < b.val then true
    else if b.val < a.val then false
    else jsLtChars as bs

/-- JS `a <= b` on strings, i.e. `!(b < a)`. -/
def jsStrLe (a b : String) : Bool := ! jsLtChars b.data a.data

/-- A project record: `{ id, name, color }` (see `DEFAULT_PROJECTS` and
`addProject` in `app.js`). -/
structure Project where
  id : String
  name : String
  color : String
deriving Repr, DecidableEq

/-- A session record as built by `stopTimer` / `pomodoroFinished` /
`breakFinished`: `startTime`/`endTime` are epoch milliseconds (the JS code
stores their ISO renderings; `getMinutesInHour` converts back with
`new Date(...)`, so the millisecond value is the faithful content). -/
structure Session where
  id : String
  projectId : String
  startTime : Int
  endTime : Int
  duration : Int
  date : String
  type : String
deriving Repr, DecidableEq

/-- Which `setInterval` callback is installed (see module docstring). -/
inductive TickKind where
  | generic
  | breakTick
deriving Repr, DecidableEq

/-- The mutable `state` object of `app.js`, restricted to the fields the
core logic reads or writes (chart handles and AI fields are omitted). -/
structure AppState where
  projects : List Project
  sessions : List Session
  activeTimer : Option String
  startTime : Option Int
  elapsedSeconds : Int
  isPaused : Bool
  pausedElapsed : Int
  pomodoroMode : Bool
  pomodoroDuration : Int
  pomodoroRemaining : Int
  timerInterval : Option TickKind
deriving Repr, DecidableEq

/-- Environment values read by the timer functions: `Date.now()`,
`getToday()`, `generateId()` and `CONFIG.MIN_SESSION_DURATION || 60`. -/
structure Env where
  now : Int
  todayStr : String
  newId : String
  minSessionDuration : Int
deriving Repr, DecidableEq

/-! ## Statistics engine -/

/-- Model of `getMinutesInHour(session, hourStart, hourEnd)` from `app.js`:
minutes of the session that fall inside the window `[hourStart, hourEnd)`,
computed as `Math.min(60, Math.round((overlapEnd - overlapStart) / 60000))`.
`Math.round x = Math.floor (x + 1/2)`, so on millisecond integers the
rounded minute count is `(ms + 30000).fdiv 60000`. -/
def getMinutesInHour (s : Session) (hourStart hourEnd : Int) : Int :=
  if s.endTime ≤ hourStart ∨ hourEnd ≤ s.startTime then 0
  else
    let overlapStart := max s.startTime hourStart
    let overlapEnd := min s.endTime hourEnd
    min 60 (Int.fdiv (overlapEnd - overlapStart + 30000) 60000)

/-- One hour window in milliseconds. -/
def hourMs : Int := 3600000

/-- Sum of `getMinutesInHour` over `n` consecutive hour-aligned windows
starting at `base` — the per-session contribution of the hourly loop in
`getStats`, which calls `getMinutesInHour` once per window. -/
def sumMinutesInHours (s : Session) (base : Int) : Nat → Int
  | 0 => 0
  | n + 1 => getMinutesInHour s base (base + hourMs) + sumMinutesInHours s (base + hourMs) n

/-- The exact overlap, in milliseconds, of the session with `[a, b)` —
the quantity `overlapEnd - overlapStart` that `getMinutesInHour` rounds,
clamped at `0` for disjoint intervals. -/
def overlapLenMs (s : Session) (a b : Int) : Int :=
  max 0 (min s.endTime b - max s.startTime a)

/-- Sum of the exact overlaps over `n` consecutive hour windows. -/
def sumOverlaps (s : Session) (base : Int) : Nat → Int
  | 0 => 0
  | n + 1 => overlapLenMs s base (base + hourMs) + sumOverlaps s (base + hourMs) n

/-- The totals computed at the top of `getStats`: `todaySessions` /
`weekSessions` filters and their `reduce`-sums of `duration`.  `today` and
`weekAgo` are the values of `getToday()` and `getWeekAgo()` (the calendar
date seven days before today); the JS comparisons are `s.date === today`
and `s.date >= weekAgo`. -/
structure StatsTotals where
  todayTotal : Int
  weekTotal : Int
deriving Repr, DecidableEq

/-- The `todayTotal`/`weekTotal` part of `getStats` in `app.js`. -/
def getStatsTotals (today weekAgo : String) (sessions : List Session) : StatsTotals :=
  let todaySessions := sessions.filter (fun s => s.date == today)
  let weekSessions := sessions.filter (fun s => jsStrLe weekAgo s.date)
  { todayTotal := todaySessions.foldl (fun acc s => acc + s.duration) 0
    weekTotal := weekSessions.foldl (fun acc s => acc + s.duration) 0 }

/-- Modelled from the spec (for comparison with the code): the spec's
week-total, "sum of `duration` over sessions whose `date` falls within
`[today-6days, today]` inclusive", where `sixDaysAgo` is the calendar date
six days before `today`. -/
def weekTotalSpec (sixDaysAgo today : String) (sessions : List Session) : Int :=
  ((sessions.filter (fun s => jsStrLe sixDaysAgo s.date && jsStrLe s.date today)).map
    (fun s => s.duration)).sum

/-! ## Timer state machine -/

/-- Model of `stopTimer(save)` from `app.js`.  No-op when idle; otherwise clears the
recovery slot and the interval, appends a session iff `save` and the stored
`elapsedSeconds` is at least `CONFIG.MIN_SESSION_DURATION || 60`, and
resets the transient timer fields. -/
def stopTimer (env : Env) (save : Bool) (st : AppState) : AppState :=
  match st.activeTimer with
  | none => st
  | some target =>
    let st1 :=
      if save = true ∧ env.minSessionDuration ≤ st.elapsedSeconds then
        { st with sessions := st.sessions ++ [{
            id := env.newId
            projectId := target
            startTime := st.startTime.getD 0
            endTime := env.now
            duration := st.elapsedSeconds
            date := env.todayStr
            type := if target = "break" then "break" else "work" }] }
      else st
    { st1 with
      activeTimer := none
      startTime := none
      elapsedSeconds := 0
      isPaused := false
      pausedElapsed := 0
      pomodoroRemaining := 0
      timerInterval := none }

/-- Model of `resumeTimer()` from `app.js`: no-op unless running and paused; rewinds
`startTime` by the frozen elapsed time and installs the generic tick
callback (whose completion branch calls `pomodoroFinished`). -/
def resumeTimer (env : Env) (st : AppState) : AppState :=
  if st.activeTimer = none ∨ st.isPaused = false then st
  else
    { st with
      isPaused := false
      startTime := some (env.now - st.pausedElapsed * 1000)
      timerInterval := some TickKind.generic }

/-- Model of `pauseTimer()` from `app.js`: no-op if idle or already paused;
clears the interval and freezes the elapsed seconds. -/
def pauseTimer (st : AppState) : AppState :=
  if st.activeTimer = none ∨ st.isPaused = true then st
  else
    { st with
      timerInterval := none
      isPaused := true
      pausedElapsed := st.elapsedSeconds }

/-- Model of `startTimer(projectId)` from `app.js`: resume when that same project is
paused; otherwise discard any running timer via `stopTimer(false)`, start a
fresh run, initialize the countdown when pomodoro mode is active, and
install the generic tick callback. -/
def startTimer (env : Env) (projectId : String) (st : AppState) : AppState :=
  if st.isPaused = true ∧ st.activeTimer = some projectId then resumeTimer env st
  else
    let st1 :=
      match st.activeTimer with
      | some _ => stopTimer env false st
      | none => st
    let st2 := { st1 with
      activeTimer := some projectId
      startTime := some env.now
      elapsedSeconds := 0
      isPaused := false
      pausedElapsed := 0 }
    let st3 :=
      if st2.pomodoroMode = true ∧ 0 < st2.pomodoroDuration then
        { st2 with pomodoroRemaining := st2.pomodoroDuration }
      else st2
    { st3 with timerInterval := some TickKind.generic }

/-- Model of `startBreak(duration)` from `app.js`: stop a running timer first (saving
it unless it is itself the break pseudo-project), then start a forced
countdown on the reserved target `"break"`, installing the break tick
callback (whose completion branch calls `breakFinished`). -/
def startBreak (env : Env) (duration : Int) (st : AppState) : AppState :=
  let st1 :=
    match st.activeTimer with
    | some t => stopTimer env (t != "break") st
    | none => st
  { st1 with
    activeTimer := some "break"
    startTime := some env.now
    elapsedSeconds := 0
    isPaused := false
    pausedElapsed := 0
    pomodoroMode := true
    pomodoroDuration := duration
    pomodoroRemaining := duration
    timerInterval := some TickKind.breakTick }

/-- Model of `pomodoroFinished()` from `app.js` (with the 3-second delayed display
reset folded in): clears the interval and unconditionally appends a session
with `type: 'pomodoro'` and `duration: state.pomodoroDuration`, then resets
the transient fields.  `pomodoroDuration` and `pomodoroMode` are left
unchanged. -/
def pomodoroFinished (env : Env) (st : AppState) : AppState :=
  { st with
    timerInterval := none
    sessions := st.sessions ++ [{
      id := env.newId
      projectId := st.activeTimer.getD ""
      startTime := st.startTime.getD 0
      endTime := env.now
      duration := st.pomodoroDuration
      date := env.todayStr
      type := "pomodoro" }]
    activeTimer := none
    startTime := none
    elapsedSeconds := 0
    pomodoroRemaining := 0 }

/-- Model of `breakFinished()` from `app.js` (delayed reset folded in): clears the
interval and unconditionally appends a session with `projectId: 'break'`,
`type: 'break'` and `duration: state.pomodoroDuration`, then resets the
transient fields and restores the default 25-minute pomodoro duration. -/
def breakFinished (env : Env) (st : AppState) : AppState :=
  { st with
    timerInterval := none
    sessions := st.sessions ++ [{
      id := env.newId
      projectId := "break"
      startTime := st.startTime.getD 0
      endTime := env.now
      duration := st.pomodoroDuration
      date := env.todayStr
      type := "break" }]
    activeTimer := none
    startTime := none
    elapsedSeconds := 0
    pomodoroRemaining := 0
    pomodoroDuration := 25 * 60 }

/-- Model of `Math.floor((Date.now() - state.startTime) / 1000)` — the elapsed
seconds recomputed at each tick. -/
def elapsedAt (env : Env) (st : AppState) : Int :=
  Int.fdiv (env.now - st.startTime.getD 0) 1000

/-- One invocation of the installed `setInterval` callback.  The callbacks
installed by `startTimer`/`resumeTimer` (`generic`) recompute
`elapsedSeconds`, and when pomodoro mode is active with a positive duration
recompute `pomodoroRemaining` and call `pomodoroFinished` at zero.  The
callback installed by `startBreak` (`breakTick`) recomputes both fields
unconditionally and calls `breakFinished` at zero. -/
def tick (env : Env) (st : AppState) : AppState :=
  match st.timerInterval with
  | none => st
  | some TickKind.generic =>
    let e := elapsedAt env st
    let st1 := { st with elapsedSeconds := e }
    if st1.pomodoroMode = true ∧ 0 < st1.pomodoroDuration then
      let st2 := { st1 with pomodoroRemaining := st1.pomodoroDuration - e }
      if st2.pomodoroRemaining ≤ 0 then pomodoroFinished env st2 else st2
    else st1
  | some TickKind.breakTick =>
    let e := elapsedAt env st
    let st1 := { st with elapsedSeconds := e, pomodoroRemaining := st.pomodoroDuration - e }
    if st1.pomodoroRemaining ≤ 0 then breakFinished env st1 else st1

/-- Model of `deleteProject(id)` from `app.js`: if the active timer runs on that
project, stop it with `save = false`, then drop the project and every
session referencing it. -/
def deleteProject (env : Env) (id : String) (st : AppState) : AppState :=
  let st1 := if st.activeTimer = some id then stopTimer env false st else st
  { st1 with
    projects := st1.projects.filter (fun p => p.id != id)
    sessions := st1.sessions.filter (fun s => s.projectId != id) }

/-! ## Sync client and backend -/

/-- A daily sync document as stored in S3 and parsed by `loadFromAWS`. -/
structure RemoteDoc where
  date : String
  sessions : List Session
  projects : List Project
  syncedAt : String
deriving Repr, DecidableEq

/-- The body of the `remoteData.projects.forEach` loop in `mergeFromAWS`:
`findIndex` on the local list by `id`; if absent, `push` the remote
project; if present with a different `name` or `color`, overwrite the local
entry with the remote one. -/
def mergeProject (ps : List Project) (rp : Project) : List Project :=
  match ps.findIdx? (fun p => p.id == rp.id) with
  | none => ps ++ [rp]
  | some i =>
    match ps[i]? with
    | none => ps
    | some lp =>
      if lp.name ≠ rp.name ∨ lp.color ≠ rp.color then ps.set i rp else ps

/-- The `remoteData.projects.forEach` loop of `mergeFromAWS`. -/
def mergeProjects (ps : List Project) (rps : List Project) : List Project :=
  rps.foldl mergeProject ps

/-- The body of the `remoteData.sessions.forEach` loop in `mergeFromAWS`:
append the remote session unless a local session with the same `id`
exists. -/
def mergeSession (ss : List Session) (rs : Session) : List Session :=
  if ss.any (fun s => s.id == rs.id) then ss else ss ++ [rs]

/-- The `remoteData.sessions.forEach` loop of `mergeFromAWS`. -/
def mergeSessions (ss : List Session) (rss : List Session) : List Session :=
  rss.foldl mergeSession ss

/-- Model of `mergeFromAWS` from `app.js`, applied to an already-fetched remote
document (the `if (!remoteData) return` guard is the caller's concern):
merge remote projects by id with remote-wins overwrite, and append remote
sessions whose id is not present locally. -/
def mergeFromAWS (st : AppState) (doc : RemoteDoc) : AppState :=
  { st with
    projects := mergeProjects st.projects doc.projects
    sessions := mergeSessions st.sessions doc.sessions }

/-- The possible outcomes of the `fetch` in `loadFromAWS` for a single
date, as distinguished by the JS code's branches. -/
inductive FetchOutcome where
  | success (doc : RemoteDoc)
  | parseError
  | notFound
  | httpError (status : Int)
  | networkFailure
deriving Repr, DecidableEq

/-- Model of `loadFromAWS(date)` from `app.js`, as a function of the fetch outcome:
a 404 returns `null`; a non-ok status or a thrown network/parse error is
caught and returns `null`; success returns the parsed document. -/
def loadFromAWS (resp : FetchOutcome) : Option RemoteDoc :=
  match resp with
  | FetchOutcome.success doc => some doc
  | FetchOutcome.parseError => none
  | FetchOutcome.notFound => none
  | FetchOutcome.httpError _ => none
  | FetchOutcome.networkFailure => none

/-- A stored daily document as encountered by `handleGetDateRange`'s load
loop: either it loads and parses, or the `GetObjectCommand`/`JSON.parse`
throws (the `catch` branch that logs a warning and continues). -/
inductive StoredFile where
  | good (doc : RemoteDoc)
  | corrupt
deriving Repr, DecidableEq

/-- Whether a stored file loads successfully. -/
def StoredFile.isGood : StoredFile → Bool
  | StoredFile.good _ => true
  | StoredFile.corrupt => false

/-- The JS `Map`-keyed-by-`projects.set(p.id, p)` update: replace in place
the first (unique, in a Map) entry with this id, else append — this is
exactly insertion-ordered `Map.set`. -/
def mapSetProject : List Project → Project → List Project
  | [], p => [p]
  | q :: qs, p => if q.id == p.id then p :: qs else q :: mapSetProject qs p

/-- The `for (const fileKey of files)` loop of `handleGetDateRange`:
sessions of good files are concatenated, projects are deduplicated by id
(`Map.set`, last-loaded-wins), corrupt files are skipped. -/
def rangeLoop : List StoredFile → List Session → List Project → List Session × List Project
  | [], ss, ps => (ss, ps)
  | StoredFile.good d :: fs, ss, ps =>
    rangeLoop fs (ss ++ d.sessions) (d.projects.foldl mapSetProject ps)
  | StoredFile.corrupt :: fs, ss, ps => rangeLoop fs ss ps

/-- The aggregated range response body:
`{ sessions, projects, filesLoaded }`. -/
structure RangeResponse where
  sessions : List Session
  projects : List Project
  filesLoaded : Nat
deriving Repr, DecidableEq

/-- Model of `handleGetDateRange` from the Lambda, applied to the date-filtered file
list: aggregate over the files, and report `filesLoaded: files.length` —
the length of the matched file list. -/
def handleGetDateRange (files : List StoredFile) : RangeResponse :=
  let out := rangeLoop files [] []
  { sessions := out.1, projects := out.2, filesLoaded := files.length }

/-! ## Helper lemmas -/

/-- A JS `reduce((acc, s) => acc + s.duration, init)` is `init` plus the sum of
the durations. -/
theorem foldl_add_duration (l : List Session) (init : Int) :
    l.foldl (fun acc s => acc + s.duration) init = init + (l.map (fun s => s.duration)).sum := by
  induction l generalizing init with
  | nil => simp
  | cons s l ih => simp [List.foldl_cons, ih]; ring

/-- Corrupt files contribute nothing to the range aggregation loop. -/
theorem rangeLoop_skips_corrupt (files : List StoredFile) (ss : List Session)
    (ps : List Project) :
    rangeLoop files ss ps = rangeLoop (files.filter StoredFile.isGood) ss ps := by
  induction files generalizing ss ps with
  | nil => rfl
  | cons f fs ih =>
    cases f with
    | good d => simp [rangeLoop, StoredFile.isGood, List.filter_cons, ih]
    | corrupt => simp [rangeLoop, StoredFile.isGood, List.filter_cons, ih]

/-! ## Claim C2 -/

/-- C2: stopping a manually-run timer with `save = true` records no new
session when `elapsedSeconds` is below the configured minimum session
duration, and records exactly one session — with duration
`elapsedSeconds`, type `"break"` iff the target is `"break"` (else
`"work"`), and date `today()` — when it is at or above the minimum. -/
theorem stopTimer_minimum_gate (env : Env) (st : AppState) (t : String)
    (h : st.activeTimer = some t) :
    (st.elapsedSeconds < env.minSessionDuration →
      (stopTimer env true st).sessions = st.sessions) ∧
    (env.minSessionDuration ≤ st.elapsedSeconds →
      (stopTimer env true st).sessions = st.sessions ++ [{
        id := env.newId
        projectId := t
        startTime := st.startTime.getD 0
        endTime := env.now
        duration := st.elapsedSeconds
        date := env.todayStr
        type := if t = "break" then "break" else "work" }]) := by
  constructor <;> intro hcmp
  · simp only [stopTimer, h]
    rw [if_neg (by push_neg; intro _; omega)]
  · simp only [stopTimer, h]
    rw [if_pos ⟨trivial, hcmp⟩]

/-- Witness for C2 at concrete inputs: a 90-second work run on `"p1"` with
threshold 60 records exactly the expected session; a 30-second run records
nothing. -/
theorem stopTimer_minimum_gate_witness :
    (stopTimer ⟨1000000, "2025-01-15", "sess1", 60⟩ true
      { projects := [], sessions := [], activeTimer := some "p1",
        startTime := some 910000, elapsedSeconds := 90, isPaused := false,
        pausedElapsed := 0, pomodoroMode := false, pomodoroDuration := 1500,
        pomodoroRemaining := 0, timerInterval := some TickKind.generic }).sessions
      = [{ id := "sess1", projectId := "p1", startTime := 910000,
           endTime := 1000000, duration := 90, date := "2025-01-15",
           type := "work" }] ∧
    (stopTimer ⟨1000000, "2025-01-15", "sess2", 60⟩ true
      { projects := [], sessions := [], activeTimer := some "p1",
        startTime := some 970000, elapsedSeconds := 30, isPaused := false,
        pausedElapsed := 0, pomodoroMode := false, pomodoroDuration := 1500,
        pomodoroRemaining := 0, timerInterval := some TickKind.generic }).sessions
      = [] := by
  constructor
  · have h2 := (stopTimer_minimum_gate ⟨1000000, "2025-01-15", "sess1", 60⟩
      { projects := [], sessions := [], activeTimer := some "p1",
        startTime := some 910000, elapsedSeconds := 90, isPaused := false,
        pausedElapsed := 0, pomodoroMode := false, pomodoroDuration := 1500,
        pomodoroRemaining := 0, timerInterval := some TickKind.generic }
      "p1" rfl).2 (by decide)
    simpa using h2
  · have h1 := (stopTimer_minimum_gate ⟨1000000, "2025-01-15", "sess2", 60⟩
      { projects := [], sessions := [], activeTimer := some "p1",
        startTime := some 970000, elapsedSeconds := 30, isPaused := false,
        pausedElapsed := 0, pomodoroMode := false, pomodoroDuration := 1500,
        pomodoroRemaining := 0, timerInterval := some TickKind.generic }
      "p1" rfl).1 (by decide)
    simpa using h1

/-! ## Claim C3 -/

/-- C3: a pomodoro or break countdown whose remaining time has reached
zero persists exactly one session on the next tick, unconditionally — the
minimum-session threshold (`env.minSessionDuration`, arbitrary here) plays
no role — and the session's duration equals the configured countdown
duration `state.pomodoroDuration`. -/
theorem countdown_completion_unconditional (env : Env) (st : AppState) (kind : TickKind)
    (hk : st.timerInterval = some kind)
    (hcond : kind = TickKind.generic → st.pomodoroMode = true ∧ 0 < st.pomodoroDuration)
    (hdone : st.pomodoroDuration ≤ elapsedAt env st) :
    (tick env st).sessions = st.sessions ++ [{
      id := env.newId
      projectId := match kind with
        | TickKind.generic => st.activeTimer.getD ""
        | TickKind.breakTick => "break"
      startTime := st.startTime.getD 0
      endTime := env.now
      duration := st.pomodoroDuration
      date := env.todayStr
      type := match kind with
        | TickKind.generic => "pomodoro"
        | TickKind.breakTick => "break" }] := by
  cases kind with
  | generic =>
    obtain ⟨hmode, hpos⟩ := hcond rfl
    simp only [tick, hk]
    rw [if_pos (by constructor <;> simp [hmode, hpos])]
    rw [if_pos (by simp; omega)]
    simp [pomodoroFinished]
  | breakTick =>
    simp only [tick, hk]
    rw [if_pos (by simp; omega)]
    simp [breakFinished]

/-- Witness for C3: a 30-second break countdown (below the default
60-second minimum threshold) still records a 30-second break session when
it completes. -/
theorem countdown_completion_unconditional_witness :
    (tick ⟨30000, "2025-01-15", "brk1", 60⟩
      { projects := [], sessions := [], activeTimer := some "break",
        startTime := some 0, elapsedSeconds := 29, isPaused := false,
        pausedElapsed := 0, pomodoroMode := true, pomodoroDuration := 30,
        pomodoroRemaining := 1, timerInterval := some TickKind.breakTick }).sessions
      = [{ id := "brk1", projectId := "break", startTime := 0,
           endTime := 30000, duration := 30, date := "2025-01-15",
           type := "break" }] := by
  have h := countdown_completion_unconditional ⟨30000, "2025-01-15", "brk1", 60⟩
    { projects := [], sessions := [], activeTimer := some "break",
      startTime := some 0, elapsedSeconds := 29, isPaused := false,
      pausedElapsed := 0, pomodoroMode := true, pomodoroDuration := 30,
      pomodoroRemaining := 1, timerInterval := some TickKind.breakTick }
    TickKind.breakTick rfl (fun hcontra => nomatch hcontra) (by decide)
  simpa using h

/-! ## Claim C5 -/

/-- C5 counterexample: the value `loadFromAWS` returns for a not-found day
is the same `null` it returns for a network failure or an HTTP 500 — the
caller cannot tell the outcomes apart, contrary to the claim. -/
theorem loadFromAWS_outcomes_indistinguishable :
    loadFromAWS FetchOutcome.notFound = loadFromAWS FetchOutcome.networkFailure ∧
    loadFromAWS FetchOutcome.notFound = loadFromAWS (FetchOutcome.httpError 500) :=
  ⟨rfl, rfl⟩

/-- C5 amended: `loadFromAWS` returns `null` for a not-found day and for
every transport/server failure alike (only the log line differs), and
returns the parsed document exactly on success. -/
theorem loadFromAWS_null_on_notFound_and_failure :
    loadFromAWS FetchOutcome.notFound = none ∧
    loadFromAWS FetchOutcome.networkFailure = none ∧
    loadFromAWS FetchOutcome.parseError = none ∧
    (∀ c : Int, loadFromAWS (FetchOutcome.httpError c) = none) ∧
    (∀ d : RemoteDoc, loadFromAWS (FetchOutcome.success d) = some d) :=
  ⟨rfl, rfl, rfl, fun _ => rfl, fun _ => rfl⟩

/-! ## Claim C6 -/

/-- A fixed sample session for the range-aggregation counterexample. -/
def sampleSession (i : String) : Session :=
  { id := i, projectId := "p1", startTime := 0, endTime := 60000,
    duration := 60, date := "2025-01-01", type := "work" }

/-- Five stored daily documents of which one fails to parse. -/
def fiveFiles : List StoredFile :=
  [StoredFile.good ⟨"2025-01-01", [sampleSession "a"], [], "t"⟩,
   StoredFile.corrupt,
   StoredFile.good ⟨"2025-01-03", [sampleSession "b"], [], "t"⟩,
   StoredFile.good ⟨"2025-01-04", [sampleSession "c"], [], "t"⟩,
   StoredFile.good ⟨"2025-01-05", [sampleSession "d"], [], "t"⟩]

/-- C6 counterexample: with 5 stored documents of which 1 fails to parse,
the response does aggregate the sessions of the 4 good documents, but
`filesLoaded` is `5` — the number of documents matched in the range — not
`4` as the claim states. -/
theorem handleGetDateRange_filesLoaded_counterexample :
    (handleGetDateRange fiveFiles).sessions =
      [sampleSession "a", sampleSession "b", sampleSession "c", sampleSession "d"] ∧
    (handleGetDateRange fiveFiles).filesLoaded = 5 ∧
    (handleGetDateRange fiveFiles).filesLoaded ≠ 4 := by
  refine ⟨?_, rfl, by decide⟩
  rfl

/-- C6 amended: documents that fail to load are skipped — removing them
changes neither the aggregated sessions nor the aggregated projects — and
the request still succeeds, but the returned `filesLoaded` equals the
number of stored documents matched in the range, including the ones that
failed to load. -/
theorem handleGetDateRange_skip_on_corruption (files : List StoredFile) :
    (handleGetDateRange files).sessions =
      (handleGetDateRange (files.filter StoredFile.isGood)).sessions ∧
    (handleGetDateRange files).projects =
      (handleGetDateRange (files.filter StoredFile.isGood)).projects ∧
    (handleGetDateRange files).filesLoaded = files.length := by
  refine ⟨?_, ?_, rfl⟩ <;>
    simp [handleGetDateRange, rangeLoop_skips_corrupt files [] []]

/-! ## Claim C7 -/

/-- A session dated `2025-01-08` — exactly seven days before a `today` of
`2025-01-15`, hence on `getWeekAgo()` itself and outside the claim's
`[today-6days, today]` window. -/
def sessionJan8 : Session :=
  { id := "s8", projectId := "p1", startTime := 0, endTime := 100000,
    duration := 100, date := "2025-01-08", type := "work" }

/-- C7 counterexample: with `today = 2025-01-15` (so `getWeekAgo()`
returns `2025-01-08` and the claim's window starts at `2025-01-09`), a
100-second session dated `2025-01-08` is counted by the code's
`weekTotal` but lies outside the claimed 7-day window. -/
theorem weekTotal_window_counterexample :
    (getStatsTotals "2025-01-15" "2025-01-08" [sessionJan8]).weekTotal = 100 ∧
    weekTotalSpec "2025-01-09" "2025-01-15" [sessionJan8] = 0 ∧
    (getStatsTotals "2025-01-15" "2025-01-08" [sessionJan8]).weekTotal ≠
      weekTotalSpec "2025-01-09" "2025-01-15" [sessionJan8] := by
  decide

/-- C7 amended: `todayTotal` is the sum of `duration` over exactly the
sessions whose `date` equals today, and `weekTotal` is the sum over
exactly the sessions whose `date` is (in JS string order) at least
`getWeekAgo()` — the calendar date seven days before today — an
eight-day-wide condition with no upper bound, not the claimed
`[today-6days, today]` window. -/
theorem getStatsTotals_characterization (today weekAgo : String)
    (sessions : List Session) :
    (getStatsTotals today weekAgo sessions).todayTotal =
      ((sessions.filter (fun s => s.date == today)).map (fun s => s.duration)).sum ∧
    (getStatsTotals today weekAgo sessions).weekTotal =
      ((sessions.filter (fun s => jsStrLe weekAgo s.date)).map (fun s => s.duration)).sum := by
  constructor <;> simp [getStatsTotals, foldl_add_duration]

/-! ## Claim C9 -/

/-- C9: deleting the project the active timer is running on first stops
the timer with `save = false`, so no session is recorded from the
in-progress run — the resulting session log is exactly the old one minus
the sessions referencing the project, the project list loses exactly that
project, and the timer is idle afterwards. -/
theorem deleteProject_active_run_discarded (env : Env) (id : String) (st : AppState)
    (h : st.activeTimer = some id) :
    (deleteProject env id st).projects = st.projects.filter (fun p => p.id != id) ∧
    (deleteProject env id st).sessions = st.sessions.filter (fun s => s.projectId != id) ∧
    (deleteProject env id st).activeTimer = none := by
  refine ⟨?_, ?_, ?_⟩ <;> simp [deleteProject, h, stopTimer]

/-- Witness for C9: deleting `"p1"` while its timer has been running for
90 saved-eligible seconds records nothing and removes the project's
sessions. -/
theorem deleteProject_active_run_discarded_witness :
    (deleteProject ⟨1000000, "2025-01-15", "sessX", 60⟩ "p1"
      { projects := [{ id := "p1", name := "A", color := "#111" },
                     { id := "p2", name := "B", color := "#222" }],
        sessions := [{ id := "s1", projectId := "p1", startTime := 0,
                       endTime := 60000, duration := 60, date := "2025-01-14",
                       type := "work" },
                     { id := "s2", projectId := "p2", startTime := 0,
                       endTime := 60000, duration := 60, date := "2025-01-14",
                       type := "work" }],
        activeTimer := some "p1", startTime := some 910000,
        elapsedSeconds := 90, isPaused := false, pausedElapsed := 0,
        pomodoroMode := false, pomodoroDuration := 1500,
        pomodoroRemaining := 0, timerInterval := some TickKind.generic }).sessions
      = [{ id := "s2", projectId := "p2", startTime := 0, endTime := 60000,
           duration := 60, date := "2025-01-14", type := "work" }] := by
  have h := (deleteProject_active_run_discarded ⟨1000000, "2025-01-15", "sessX", 60⟩ "p1"
      { projects := [{ id := "p1", name := "A", color := "#111" },
                     { id := "p2", name := "B", color := "#222" }],
        sessions := [{ id := "s1", projectId := "p1", startTime := 0,
                       endTime := 60000, duration := 60, date := "2025-01-14",
                       type := "work" },
                     { id := "s2", projectId := "p2", startTime := 0,
                       endTime := 60000, duration := 60, date := "2025-01-14",
                       type := "work" }],
        activeTimer := some "p1", startTime := some 910000,
        elapsedSeconds := 90, isPaused := false, pausedElapsed := 0,
        pomodoroMode := false, pomodoroDuration := 1500,
        pomodoroRemaining := 0, timerInterval := some TickKind.generic } rfl).2.1
  rw [h]
  decide

/-! ## Claim C10 -/

/-- C10: manually stopping a running break leaves `pomodoroMode` enabled
and `pomodoroDuration` equal to the break's duration (stopTimer does not
touch either field); only `breakFinished` restores the default 25-minute
duration; hence the next manual `startTimer` counts down from the break's
duration. -/
theorem stopBreak_keeps_break_duration (env1 env2 env3 : Env) (st : AppState)
    (d : Int) (p : String) (hd : 0 < d) :
    (stopTimer env2 true (startBreak env1 d st)).pomodoroMode = true ∧
    (stopTimer env2 true (startBreak env1 d st)).pomodoroDuration = d ∧
    (startTimer env3 p (stopTimer env2 true (startBreak env1 d st))).pomodoroRemaining = d ∧
    (breakFinished env2 (startBreak env1 d st)).pomodoroDuration = 25 * 60 := by
  refine ⟨?_, ?_, ?_, ?_⟩ <;> by_cases hc : env2.minSessionDuration ≤ 0 <;>
    simp [startBreak, stopTimer, startTimer, resumeTimer, breakFinished, hc, hd]

/-- Witness for C10 at concrete inputs: a 5-minute break started at the
default 25-minute configuration and stopped manually leaves a 300-second
countdown armed for the next manual start. -/
theorem stopBreak_keeps_break_duration_witness :
    (stopTimer ⟨200000, "2025-01-15", "i2", 60⟩ true
      (startBreak ⟨0, "2025-01-15", "i1", 60⟩ 300
        { projects := [], sessions := [], activeTimer := none,
          startTime := none, elapsedSeconds := 0, isPaused := false,
          pausedElapsed := 0, pomodoroMode := true, pomodoroDuration := 1500,
          pomodoroRemaining := 0, timerInterval := none })).pomodoroDuration = 300 ∧
    (startTimer ⟨300000, "2025-01-15", "i3", 60⟩ "p1"
      (stopTimer ⟨200000, "2025-01-15", "i2", 60⟩ true
        (startBreak ⟨0, "2025-01-15", "i1", 60⟩ 300
          { projects := [], sessions := [], activeTimer := none,
            startTime := none, elapsedSeconds := 0, isPaused := false,
            pausedElapsed := 0, pomodoroMode := true, pomodoroDuration := 1500,
            pomodoroRemaining := 0,
            timerInterval := none }))).pomodoroRemaining = 300 := by
  have h := stopBreak_keeps_break_duration ⟨0, "2025-01-15", "i1", 60⟩
    ⟨200000, "2025-01-15", "i2", 60⟩ ⟨300000, "2025-01-15", "i3", 60⟩
    { projects := [], sessions := [], activeTimer := none,
      startTime := none, elapsedSeconds := 0, isPaused := false,
      pausedElapsed := 0, pomodoroMode := true, pomodoroDuration := 1500,
      pomodoroRemaining := 0, timerInterval := none }
    300 "p1" (by decide)
  exact ⟨h.2.1, h.2.2.1⟩

/-! ## Claim C8 -/

/-- C8 evaluation at the failing input: start a 300-second break at
`t = 0`, tick once at `t = 100s`, pause, resume at `t = 150s` (which
installs the generic callback created by `resumeTimer`), and tick at
`t = 350s`, when the remaining time has reached zero.  The completion runs
`pomodoroFinished`, not `breakFinished`: the persisted session has
`projectId = "break"` but `type = "pomodoro"` and — because
`pomodoroFinished` does not restore it — the default pomodoro duration is
not restored either.  This contradicts the claim (and the spec's intent
that break completions are recorded as breaks): the session-type invariant
`projectId = "break" ↔ type = "break"` used elsewhere (e.g. the AI
statistics count `type !== 'break'` as work) is broken. -/
theorem resumed_break_completes_as_pomodoro :
    (tick ⟨350000, "2025-01-15", "i5", 60⟩
      (resumeTimer ⟨150000, "2025-01-15", "i4", 60⟩
        (pauseTimer
          (tick ⟨100000, "2025-01-15", "i3", 60⟩
            (startBreak ⟨0, "2025-01-15", "i2", 60⟩ 300
              { projects := [], sessions := [], activeTimer := none,
                startTime := none, elapsedSeconds := 0, isPaused := false,
                pausedElapsed := 0, pomodoroMode := true,
                pomodoroDuration := 1500, pomodoroRemaining := 0,
                timerInterval := none }))))).sessions
      = [{ id := "i5", projectId := "break", startTime := 50000,
           endTime := 350000, duration := 300, date := "2025-01-15",
           type := "pomodoro" }] := by
  decide

/-! ## Claim C1 -/

/-- Closed form of the exact-overlap sum: the overlaps of a session with
`n` consecutive hour windows starting at `base` add up to the overlap with
the whole `[base, base + n hours)` interval. -/
theorem sumOverlaps_eq (s : Session) : ∀ (n : Nat) (a : Int),
    sumOverlaps s a n = max 0 (min s.endTime (a + n * hourMs) - max s.startTime a) := by
  intro n
  induction n with
  | zero => intro a; simp [sumOverlaps, hourMs]
  | succ n ih =>
    intro a
    rw [show sumOverlaps s a (n + 1)
        = overlapLenMs s a (a + hourMs) + sumOverlaps s (a + hourMs) n from rfl, ih]
    simp only [overlapLenMs, hourMs]
    push_cast
    omega

/-- Per-window rounding error bound: on an hour window, the rounded minute
count reported by `getMinutesInHour` is within half a minute (30000 ms) of
the exact overlap. -/
theorem getMinutesInHour_rounding_bound (s : Session) (a : Int)
    (hse : s.startTime ≤ s.endTime) :
    overlapLenMs s a (a + hourMs) - 30000 ≤ 60000 * getMinutesInHour s a (a + hourMs) ∧
    60000 * getMinutesInHour s a (a + hourMs) ≤ overlapLenMs s a (a + hourMs) + 30000 := by
  simp only [getMinutesInHour, overlapLenMs, hourMs]
  split
  · omega
  · rw [Int.fdiv_eq_ediv _ (by norm_num)]
    omega

/-- The rounded sums stay within half a minute per window of the exact
overlap sum. -/
theorem sumMinutesInHours_bound (s : Session) (hse : s.startTime ≤ s.endTime) :
    ∀ (n : Nat) (a : Int),
    sumOverlaps s a n - 30000 * n ≤ 60000 * sumMinutesInHours s a n ∧
    60000 * sumMinutesInHours s a n ≤ sumOverlaps s a n + 30000 * n := by
  intro n
  induction n with
  | zero => intro a; simp [sumOverlaps, sumMinutesInHours]
  | succ n ih =>
    intro a
    have hA := getMinutesInHour_rounding_bound s a hse
    have hI := ih (a + hourMs)
    rw [show sumOverlaps s a (n + 1)
        = overlapLenMs s a (a + hourMs) + sumOverlaps s (a + hourMs) n from rfl,
      show sumMinutesInHours s a (n + 1)
        = getMinutesInHour s a (a + hourMs) + sumMinutesInHours s (a + hourMs) n from rfl]
    push_cast
    omega

/-- A 3600-second session running from 30 s past one hour boundary to 30 s
past the next: it touches two hour windows. -/
def spanningSession : Session :=
  { id := "cx", projectId := "p1", startTime := 30000, endTime := 3630000,
    duration := 3600, date := "2025-01-15", type := "work" }

/-- C1 counterexample: for `spanningSession` (duration 3600 s) the two
per-window results of `getMinutesInHour` are 60 and 1 minutes — their sum,
61 minutes = 3660 s, strictly exceeds the session's own duration, because
each window's overlap is rounded to whole minutes before summing. -/
theorem getMinutesInHour_conservation_counterexample :
    getMinutesInHour spanningSession 0 3600000 = 60 ∧
    getMinutesInHour spanningSession 3600000 7200000 = 1 ∧
    spanningSession.duration = 3600 ∧
    sumMinutesInHours spanningSession 0 2 = 61 ∧
    60 * sumMinutesInHours spanningSession 0 2 > spanningSession.duration ∧
    0 ≤ spanningSession.startTime ∧ spanningSession.endTime ≤ 0 + 2 * hourMs := by
  decide

/-- C1 amended: `getMinutesInHour` yields the portion of the session
inside the window rounded to whole minutes (capped at 60), so over any run
of `n` consecutive hour windows covering the session the summed results
equal the session's true span only up to half a minute of rounding slack
per window: in milliseconds, the sum lies within
`[span - 30000 n, span + 30000 n]` (the exact, un-rounded overlaps do sum
to the span, by `sumOverlaps_eq`); the rounded sum can strictly exceed the
session's duration, as the counterexample shows. -/
theorem overlap_conservation_up_to_rounding (s : Session) (a : Int) (n : Nat)
    (hse : s.startTime ≤ s.endTime) (ha : a ≤ s.startTime)
    (hb : s.endTime ≤ a + n * hourMs) :
    (s.endTime - s.startTime) - 30000 * n ≤ 60000 * sumMinutesInHours s a n ∧
    60000 * sumMinutesInHours s a n ≤ (s.endTime - s.startTime) + 30000 * n := by
  have hB := sumOverlaps_eq s n a
  have hC := sumMinutesInHours_bound s hse n a
  rw [hB] at hC
  constructor <;> [have := hC.1; have := hC.2] <;> omega

/-- Witness for C1's amended theorem at `spanningSession` with two hour
windows starting at 0. -/
theorem overlap_conservation_up_to_rounding_witness :
    (spanningSession.endTime - spanningSession.startTime) - 30000 * 2
        ≤ 60000 * sumMinutesInHours spanningSession 0 2 ∧
    60000 * sumMinutesInHours spanningSession 0 2
        ≤ (spanningSession.endTime - spanningSession.startTime) + 30000 * 2 := by
  have h := overlap_conservation_up_to_rounding spanningSession 0 2
    (by decide) (by decide) (by decide)
  exact_mod_cast h

/-! ## Claim C4: session side -/

/-- Whether some session in the log already carries this id. -/
def hasSessId (ss : List Session) (x : String) : Bool :=
  ss.any (fun s => s.id == x)

theorem mergeSession_hasId_mono (ss : List Session) (rs : Session) (x : String)
    (h : hasSessId ss x = true) : hasSessId (mergeSession ss rs) x = true := by
  unfold mergeSession
  split
  · exact h
  · simp only [hasSessId, List.any_append] at h ⊢
    simp [h]

theorem mergeSession_hasId_self (ss : List Session) (rs : Session) :
    hasSessId (mergeSession ss rs) rs.id = true := by
  unfold mergeSession
  split
  · assumption
  · simp [hasSessId, List.any_append]

theorem mergeSessions_hasId_mono (rss : List Session) (ss : List Session) (x : String)
    (h : hasSessId ss x = true) : hasSessId (mergeSessions ss rss) x = true := by
  induction rss generalizing ss with
  | nil => exact h
  | cons r rest ih => exact ih (mergeSession ss r) (mergeSession_hasId_mono ss r x h)

theorem mergeSessions_all_present (rss : List Session) (ss : List Session) :
    ∀ rs ∈ rss, hasSessId (mergeSessions ss rss) rs.id = true := by
  induction rss generalizing ss with
  | nil => intro rs h; exact absurd h (List.not_mem_nil rs)
  | cons r rest ih =>
    intro rs h
    rcases List.mem_cons.mp h with h | h
    · subst h
      exact mergeSessions_hasId_mono rest (mergeSession ss rs) rs.id
        (mergeSession_hasId_self ss rs)
    · exact ih (mergeSession ss r) rs h

theorem mergeSessions_noop (rss : List Session) (ss : List Session)
    (h : ∀ rs ∈ rss, hasSessId ss rs.id = true) : mergeSessions ss rss = ss := by
  induction rss with
  | nil => rfl
  | cons r rest ih =>
    have hr : mergeSession ss r = ss := by
      have hh := h r (List.mem_cons_self r rest)
      simp only [hasSessId] at hh
      unfold mergeSession
      rw [if_pos hh]
    show mergeSessions (mergeSession ss r) rest = ss
    rw [hr]
    exact ih (fun rs hm => h rs (List.mem_cons_of_mem r hm))

/-- Merging the same remote session list twice adds nothing the second
time. -/
theorem mergeSessions_idem (ss rss : List Session) :
    mergeSessions (mergeSessions ss rss) rss = mergeSessions ss rss :=
  mergeSessions_noop rss (mergeSessions ss rss) (mergeSessions_all_present rss ss)

/-! ## Claim C4: project side -/

/-- Unfolding of `findIdx?` on a cons cell, with the start-index bookkeeping folded
away. -/
theorem findIdx?_cons_eq {α : Type} (p : α → Bool) (a : α) (l : List α) :
    (a :: l).findIdx? p = if p a then some 0 else (l.findIdx? p).map (fun k => k + 1) := by
  simp [List.findIdx?_cons]

/-- Structural recursion characterization of `mergeProject` (the
`findIndex` + `push`/overwrite loop body): the first entry with the
remote id is overwritten iff name or color differ, later entries are
untouched, and a missing id is appended at the end. -/
theorem mergeProject_cons (p : Project) (ps : List Project) (rp : Project) :
    mergeProject (p :: ps) rp =
      if p.id == rp.id then
        (if p.name ≠ rp.name ∨ p.color ≠ rp.color then rp :: ps else p :: ps)
      else p :: mergeProject ps rp := by
  cases h : p.id == rp.id with
  | true =>
    simp only [mergeProject, findIdx?_cons_eq, h]
    simp
  | false =>
    simp only [mergeProject, findIdx?_cons_eq, h]
    cases hf : ps.findIdx? (fun q => q.id == rp.id) with
    | none => simp [mergeProject, hf]
    | some i =>
      cases hg : ps[i]? with
      | none => simp [mergeProject, hf, hg]
      | some lp =>
        simp [mergeProject, hf, hg]
        split <;> rfl

/-- Whether some project in the list already carries this id. -/
def hasProjId (ps : List Project) (x : String) : Bool :=
  ps.any (fun p => p.id == x)

theorem hasProjId_mergeProject_mono (ps : List Project) (rp : Project) (x : String)
    (h : hasProjId ps x = true) : hasProjId (mergeProject ps rp) x = true := by
  induction ps with
  | nil => simp [hasProjId] at h
  | cons p ps ih =>
    rw [mergeProject_cons]
    simp only [hasProjId, List.any_cons, Bool.or_eq_true] at h
    by_cases hpq : p.id = rp.id
    · rw [if_pos (by simpa using hpq)]
      split
      · simp only [hasProjId, List.any_cons, Bool.or_eq_true]
        rcases h with h | h
        · refine Or.inl ?_
          have hpx : p.id = x := by simpa using h
          have hrx : rp.id = x := by rw [← hpq]; exact hpx
          simpa using hrx
        · exact Or.inr h
      · simp only [hasProjId, List.any_cons, Bool.or_eq_true]
        exact h
    · rw [if_neg (by simpa using hpq)]
      simp only [hasProjId, List.any_cons, Bool.or_eq_true]
      rcases h with h | h
      · exact Or.inl h
      · exact Or.inr (ih h)

theorem hasProjId_mergeProject_self (ps : List Project) (rp : Project) :
    hasProjId (mergeProject ps rp) rp.id = true := by
  induction ps with
  | nil => simp [mergeProject, hasProjId]
  | cons p ps ih =>
    rw [mergeProject_cons]
    by_cases hpq : p.id = rp.id
    · rw [if_pos (by simpa using hpq)]
      split
      · simp [hasProjId]
      · simp [hasProjId, List.any_cons, hpq]
    · rw [if_neg (by simpa using hpq)]
      simp only [hasProjId, List.any_cons, Bool.or_eq_true]
      exact Or.inr ih

theorem hasProjId_mergeProjects_mono (rps : List Project) (ps : List Project) (x : String)
    (h : hasProjId ps x = true) : hasProjId (mergeProjects ps rps) x = true := by
  induction rps generalizing ps with
  | nil => exact h
  | cons r rest ih => exact ih (mergeProject ps r) (hasProjId_mergeProject_mono ps r x h)

/-- After merging `rp`, the first entry with `rp.id` is exactly `rp`. -/
theorem find?_mergeProject_self (ps : List Project) (rp : Project) :
    (mergeProject ps rp).find? (fun p => p.id == rp.id) = some rp := by
  induction ps with
  | nil =>
    show [rp].find? (fun p => p.id == rp.id) = some rp
    rw [List.find?_cons_of_pos _ (by simp)]
  | cons p ps ih =>
    rw [mergeProject_cons]
    by_cases hpq : p.id = rp.id
    · rw [if_pos (by simpa using hpq)]
      split
      · rw [List.find?_cons_of_pos _ (by simp)]
      · rename_i hdiff
        rw [List.find?_cons_of_pos _ (by simpa using hpq)]
        have hname : p.name = rp.name := by
          by_contra hc
          exact hdiff (Or.inl hc)
        have hcolor : p.color = rp.color := by
          by_contra hc
          exact hdiff (Or.inr hc)
        cases p
        cases rp
        simp_all
    · rw [if_neg (by simpa using hpq)]
      rw [List.find?_cons_of_neg _ (by simpa using hpq)]
      exact ih

/-- Merging a project with a different id does not change what the first
entry with id `x` is. -/
theorem find?_mergeProject_other (ps : List Project) (rp : Project) (x : String)
    (hx : rp.id ≠ x) :
    (mergeProject ps rp).find? (fun p => p.id == x) = ps.find? (fun p => p.id == x) := by
  induction ps with
  | nil =>
    show [rp].find? (fun p => p.id == x) = [].find? (fun p => p.id == x)
    rw [List.find?_cons_of_neg _ (by simpa using hx)]
  | cons p ps ih =>
    rw [mergeProject_cons]
    by_cases hpq : p.id = rp.id
    · have hpx : p.id ≠ x := by rw [hpq]; exact hx
      rw [if_pos (by simpa using hpq)]
      have hgoal : ∀ q : Project, q.id = rp.id →
          (q :: ps).find? (fun p => p.id == x) = (p :: ps).find? (fun p => p.id == x) := by
        intro q hq
        rw [List.find?_cons_of_neg _ (by simpa [hq] using hx),
          List.find?_cons_of_neg _ (by simpa using hpx)]
      split
      · exact hgoal rp rfl
      · exact hgoal p hpq
    · rw [if_neg (by simpa using hpq)]
      by_cases hpx : p.id = x
      · rw [List.find?_cons_of_pos _ (by simpa using hpx),
          List.find?_cons_of_pos _ (by simpa using hpx)]
      · rw [List.find?_cons_of_neg _ (by simpa using hpx),
          List.find?_cons_of_neg _ (by simpa using hpx)]
        exact ih

/-- Merging a remote list none of whose ids is `x` does not change what
the first entry with id `x` is. -/
theorem find?_mergeProjects_isolated (rps : List Project) (ps : List Project) (x : String)
    (hx : rps.any (fun r => r.id == x) = false) :
    (mergeProjects ps rps).find? (fun p => p.id == x) = ps.find? (fun p => p.id == x) := by
  induction rps generalizing ps with
  | nil => rfl
  | cons r rest ih =>
    simp only [List.any_cons, Bool.or_eq_false_iff] at hx
    have hr : r.id ≠ x := by simpa using hx.1
    show (mergeProjects (mergeProject ps r) rest).find? (fun p => p.id == x) = _
    rw [ih (mergeProject ps r) hx.2, find?_mergeProject_other ps r x hr]

/-- If the first entry with the remote project's id is already exactly the
remote project, the merge step is the identity. -/
theorem mergeProject_of_find?_self (ps : List Project) (rp : Project)
    (h : ps.find? (fun p => p.id == rp.id) = some rp) : mergeProject ps rp = ps := by
  induction ps with
  | nil => simp at h
  | cons p ps ih =>
    rw [mergeProject_cons]
    by_cases hpq : p.id = rp.id
    · rw [if_pos (by simpa using hpq)]
      rw [List.find?_cons_of_pos _ (by simpa using hpq)] at h
      have hp : p = rp := by simpa using h
      rw [if_neg (by simp [hp])]
    · rw [if_neg (by simpa using hpq)]
      rw [List.find?_cons_of_neg _ (by simpa using hpq)] at h
      rw [ih h]

/-- Two project lists that agree everywhere except possibly at the first
entry carrying id `x` (which both must carry).  The merge loop treats such
lists identically once an incoming project with id `x` overwrites that
entry. -/
inductive AgreeX (x : String) : List Project → List Project → Prop where
  | refl (qs : List Project) : AgreeX x qs qs
  | head (v w : Project) (qs : List Project) :
      v.id = x → w.id = x → AgreeX x (v :: qs) (w :: qs)
  | cons (p : Project) {qs qs' : List Project} :
      p.id ≠ x → AgreeX x qs qs' → AgreeX x (p :: qs) (p :: qs')

/-- When the head already carries the incoming id, the merge result is the
incoming project consed on the old tail (the head is overwritten when it
differs, and is already equal to the incoming project otherwise). -/
theorem mergeProject_cons_self (q : Project) (qs : List Project) (r : Project)
    (hq : q.id = r.id) : mergeProject (q :: qs) r = r :: qs := by
  rw [mergeProject_cons, if_pos (by simpa using hq)]
  split
  · rfl
  · rename_i hdiff
    have hname : q.name = r.name := by
      by_contra hc
      exact hdiff (Or.inl hc)
    have hcolor : q.color = r.color := by
      by_contra hc
      exact hdiff (Or.inr hc)
    have : q = r := by
      cases q
      cases r
      simp_all
    rw [this]

/-- When the head carries a different id, the merge recurses past it. -/
theorem mergeProject_cons_other (q : Project) (qs : List Project) (r : Project)
    (hq : q.id ≠ r.id) : mergeProject (q :: qs) r = q :: mergeProject qs r := by
  rw [mergeProject_cons, if_neg (by simpa using hq)]

/-- Merging a project whose id is `x` collapses `AgreeX x` lists to the
same result: the differing entry is overwritten (or already equal) on both
sides. -/
theorem mergeProject_collapse {x : String} {qs qs' : List Project} (r : Project)
    (hr : r.id = x) (hag : AgreeX x qs qs') : mergeProject qs r = mergeProject qs' r := by
  induction hag with
  | refl qs => rfl
  | head v w qs hv hw =>
    have hvr : v.id = r.id := by rw [hv, hr]
    have hwr : w.id = r.id := by rw [hw, hr]
    rw [mergeProject_cons_self v qs r hvr, mergeProject_cons_self w qs r hwr]
  | cons p hp hag ih =>
    have hpr : p.id ≠ r.id := by rw [hr]; exact hp
    rw [mergeProject_cons_other p _ r hpr, mergeProject_cons_other p _ r hpr, ih]

/-- Merging a project whose id is not `x` preserves `AgreeX x`. -/
theorem mergeProject_agreeX {x : String} {qs qs' : List Project} (r : Project)
    (hr : r.id ≠ x) (hag : AgreeX x qs qs') :
    AgreeX x (mergeProject qs r) (mergeProject qs' r) := by
  induction hag with
  | refl qs => exact AgreeX.refl _
  | head v w qs hv hw =>
    have hvr : v.id ≠ r.id := by rw [hv]; exact fun hc => hr hc.symm
    have hwr : w.id ≠ r.id := by rw [hw]; exact fun hc => hr hc.symm
    rw [mergeProject_cons_other v qs r hvr, mergeProject_cons_other w qs r hwr]
    exact AgreeX.head v w _ hv hw
  | cons p hp hag ih =>
    by_cases hpr : p.id = r.id
    · rw [mergeProject_cons_self p _ r hpr, mergeProject_cons_self p _ r hpr]
      exact AgreeX.cons r hr hag
    · rw [mergeProject_cons_other p _ r hpr, mergeProject_cons_other p _ r hpr]
      exact AgreeX.cons p hp ih

/-- If id `x` occurs in the list, merging a project with id `x` produces a
list that is `AgreeX x` with the original. -/
theorem agreeX_mergeProject_self (ps : List Project) (r : Project) (x : String)
    (hx : hasProjId ps x = true) (hr : r.id = x) : AgreeX x ps (mergeProject ps r) := by
  induction ps with
  | nil => simp [hasProjId] at hx
  | cons p ps ih =>
    by_cases hpr : p.id = r.id
    · rw [mergeProject_cons_self p ps r hpr]
      have hpx : p.id = x := by rw [hpr, hr]
      exact AgreeX.head p r ps hpx hr
    · rw [mergeProject_cons_other p ps r hpr]
      have hpx : p.id ≠ x := by
        intro hc
        exact hpr (by rw [hc, hr])
      have hx2 : hasProjId ps x = true := by
        simp only [hasProjId, List.any_cons, Bool.or_eq_true] at hx
        rcases hx with hx | hx
        · exact absurd (by simpa using hx) hpx
        · exact hx
      exact AgreeX.cons p hpx (ih hx2)

/-- Replaying a remote list that contains id `x` erases an `AgreeX x`
difference: both lists merge to the same result. -/
theorem mergeProjects_erase_agreeX (rps : List Project) {x : String}
    {qs qs' : List Project} (hx : rps.any (fun r => r.id == x) = true)
    (hag : AgreeX x qs qs') : mergeProjects qs rps = mergeProjects qs' rps := by
  induction rps generalizing qs qs' with
  | nil => simp at hx
  | cons r rest ih =>
    show mergeProjects (mergeProject qs r) rest = mergeProjects (mergeProject qs' r) rest
    by_cases hr : r.id = x
    · rw [mergeProject_collapse r hr hag]
    · simp only [List.any_cons, Bool.or_eq_true] at hx
      rcases hx with hx | hx
      · exact absurd (by simpa using hx) hr
      · exact ih hx (mergeProject_agreeX r hr hag)

/-- The project half of merge idempotence: replaying the same remote
project list a second time reproduces the same local project list. -/
theorem mergeProjects_idem (rps : List Project) : ∀ ps : List Project,
    mergeProjects (mergeProjects ps rps) rps = mergeProjects ps rps := by
  induction rps with
  | nil => intro ps; rfl
  | cons rp rest ih =>
    intro ps
    show mergeProjects (mergeProject (mergeProjects (mergeProject ps rp) rest) rp) rest
      = mergeProjects (mergeProject ps rp) rest
    set A := mergeProjects (mergeProject ps rp) rest with hA
    by_cases hx : rest.any (fun r => r.id == rp.id) = true
    · have hB : hasProjId (mergeProject ps rp) rp.id = true :=
        hasProjId_mergeProject_self ps rp
      have hhas : hasProjId A rp.id = true := by
        rw [hA]
        exact hasProjId_mergeProjects_mono rest (mergeProject ps rp) rp.id hB
      have hag : AgreeX rp.id A (mergeProject A rp) :=
        agreeX_mergeProject_self A rp rp.id hhas rfl
      have heq : mergeProjects A rest = mergeProjects (mergeProject A rp) rest :=
        mergeProjects_erase_agreeX rest hx hag
      rw [← heq]
      exact ih (mergeProject ps rp)
    · have hxf : rest.any (fun r => r.id == rp.id) = false := by
        simpa using hx
      have h1 : A.find? (fun p => p.id == rp.id)
          = (mergeProject ps rp).find? (fun p => p.id == rp.id) := by
        rw [hA]
        exact find?_mergeProjects_isolated rest (mergeProject ps rp) rp.id hxf
      have h2 : A.find? (fun p => p.id == rp.id) = some rp :=
        h1.trans (find?_mergeProject_self ps rp)
      rw [mergeProject_of_find?_self A rp h2]
      exact ih (mergeProject ps rp)

/-! ## Claim C4 -/

/-- C4: merge is idempotent — for every local state and every remote daily
document, merging the document twice in a row yields the same local
project list and session log as merging it once: the second merge
introduces no duplicate sessions and no duplicate projects (this holds
even for remote documents that themselves contain duplicate ids). -/
theorem mergeFromAWS_idempotent (st : AppState) (doc : RemoteDoc) :
    mergeFromAWS (mergeFromAWS st doc) doc = mergeFromAWS st doc := by
  simp only [mergeFromAWS]
  rw [mergeProjects_idem doc.projects st.projects,
    mergeSessions_idem st.sessions doc.sessions]

end PT
